import Mathlib

/-!
Verification of the TLS record-framing layer: the generic protocol-enumeration
codec pattern (msgs/macros.rs) and the outbound opaque record message
(msgs/message/outbound_opaque.rs).

Pure Rust functions are embedded as Lean functions over `Nat` and `List Nat`
(a byte buffer is a list of naturals; machine-integer casts are explicit
`% 256` / `% 65536`).  The cursor-style reader is threaded explicitly:
a Rust function taking `&mut Reader` becomes a Lean function returning its
result paired with the updated reader.
-/

/-- Modelled from the spec: the cursor/reader collaborator over an
already-buffered byte region, supporting "take N bytes or report
insufficient".  A failed take consumes nothing. -/
structure Reader where
  buffer : List Nat
  cursor : Nat
deriving DecidableEq, Repr

/-- Modelled from the spec: a reader positioned at the start of a buffer. -/
def Reader.init (bytes : List Nat) : Reader := ⟨bytes, 0⟩

/-- Modelled from the spec: number of unread bytes left in the cursor. -/
def Reader.left (r : Reader) : Nat := r.buffer.length - r.cursor

/-- The unread suffix of the reader's buffer (specification device used to
state theorems about the cursor). -/
def Reader.remaining (r : Reader) : List Nat := r.buffer.drop r.cursor

/-- Modelled from the spec: take `n` bytes from the cursor, or report
insufficient data without consuming anything. -/
def Reader.take (r : Reader) (n : Nat) : Option (List Nat × Reader) :=
  if r.left < n then none
  else some ((r.buffer.drop r.cursor).take n, ⟨r.buffer, r.cursor + n⟩)

/-- Big-endian value of a byte list. -/
def beVal (bs : List Nat) : Nat := bs.foldl (fun a b => a * 256 + b) 0

/-- Modelled from the spec: read a fixed-width big-endian integer from the
cursor, or report insufficient bytes.  `width` is the byte width of the
backing integer (1 for u8, 2 for u16). -/
def readUintBE (width : Nat) (r : Reader) : Option (Nat × Reader) :=
  match r.take width with
  | none => none
  | some (bs, r₂) => some (beVal bs, r₂)

/-- Modelled from the spec: the decode-error type for low-level item decoding;
only the missing-data variant (naming the decoded item) is reachable from
this layer. -/
inductive InvalidMessage where
  | missingData (item : String)
deriving DecidableEq, Repr

/-- A value of an enumeration generated by the codec pattern of
msgs/macros.rs: one of the named constants, or the open variant carrying an
arbitrary backing-width integer.  A named variant is identified by its
constant (the named constants of each generated enumeration are pairwise
distinct). -/
inductive EnumVal where
  | known (v : Nat)
  | unknown (v : Nat)
deriving DecidableEq, Repr

/-- The generated `$get_uint` accessor (macros.rs lines 23-28): the constant
of a named variant, or the stored raw integer of the open variant. -/
def EnumVal.getUint : EnumVal → Nat
  | .known v => v
  | .unknown v => v

/-- The generated `From<$uint>` conversion (macros.rs lines 59-66): an
integer matching a named constant yields that named variant, anything else
yields the open variant carrying the integer. -/
def EnumVal.fromInt (constants : List Nat) (x : Nat) : EnumVal :=
  if x ∈ constants then .known x else .unknown x

/-- Whether a value is the open variant (the `if let Unknown(_)` test). -/
def EnumVal.isUnknown : EnumVal → Bool
  | .unknown _ => true
  | .known _ => false

/-- The generated `Codec::read` (macros.rs lines 52-57): read the
backing-width integer, mapping a short read to a missing-data error naming
the enumeration, and apply the integer-to-value conversion. -/
def EnumVal.read (name : String) (constants : List Nat) (width : Nat)
    (r : Reader) : Except InvalidMessage EnumVal × Reader :=
  match readUintBE width r with
  | none => (.error (.missingData name), r)
  | some (x, r₂) => (.ok (.fromInt constants x), r₂)

/-- Modelled from the spec: the named content-type constants.  The spec pins
handshake = 0x16 and application-data = 0x17 (§8 vectors) and a closed set of
currently-defined record content types; this is the standard TLS set
(change-cipher-spec, alert, handshake, application-data, heartbeat). -/
def ctConstants : List Nat := [20, 21, 22, 23, 24]

/-- Modelled from the spec: the named protocol-version constants (the spec
leaves the exact named set to the enumeration instance; this is the standard
TLS/DTLS set, with the 0x03xx legacy family containing named members such as
0x0301). -/
def pvConstants : List Nat :=
  [0x0200, 0x0300, 0x0301, 0x0302, 0x0303, 0x0304, 0xFEFF, 0xFEFD, 0xFEFC]

/-- ContentType is the @U8 instance of the codec pattern. -/
def ContentType.read (r : Reader) : Except InvalidMessage EnumVal × Reader :=
  EnumVal.read "ContentType" ctConstants 1 r

/-- ProtocolVersion is the @U16 instance of the codec pattern. -/
def ProtocolVersion.read (r : Reader) : Except InvalidMessage EnumVal × Reader :=
  EnumVal.read "ProtocolVersion" pvConstants 2 r

/-- `ContentType::ApplicationData` (wire value 0x17). -/
def applicationData : EnumVal := .known 23

/-- The framing error type `MessageError`, with the variants named by
outbound_opaque.rs (the type itself lives outside the given sources;
modelled from the spec §7 error taxonomy). -/
inductive MessageError where
  | tooShortForHeader
  | tooShortForLength
  | invalidContentType
  | unknownProtocolVersion
  | invalidEmptyPayload
  | messageTooLarge
deriving DecidableEq, Repr

/-- `OutboundOpaqueMessage::MAX_PAYLOAD` = 2^14 + 2048. -/
def MAX_PAYLOAD : Nat := 16384 + 2048

/-- `OutboundOpaqueMessage::HEADER_SIZE` = 1 + 2 + 2. -/
def HEADER_SIZE : Nat := 1 + 2 + 2

/-- `PrefixedPayload` (outbound_opaque.rs line 98): a growable byte buffer
whose first `HEADER_SIZE` bytes are reserved for the record header. -/
structure PrefixedPayload where
  buf : List Nat
deriving DecidableEq, Repr

/-- `PrefixedPayload::with_capacity` (lines 100-107): an empty payload whose
buffer holds exactly the zeroed 5-byte reserved region (the requested
capacity only pre-reserves allocation and does not affect contents). -/
def PrefixedPayload.withCapacity (_capacity : Nat) : PrefixedPayload :=
  ⟨List.replicate HEADER_SIZE 0⟩

/-- `From<&[u8]> for PrefixedPayload` (lines 141-145): a zeroed 5-byte
reserved region followed by the given content.  `From<&[u8; N]>`
(lines 147-152) delegates to this. -/
def PrefixedPayload.fromSlice (content : List Nat) : PrefixedPayload :=
  ⟨List.replicate HEADER_SIZE 0 ++ content⟩

/-- `AsRef<[u8]> for PrefixedPayload` (lines 109-113): the buffer region
after the reserved 5-byte header region. -/
def PrefixedPayload.asRef (p : PrefixedPayload) : List Nat :=
  p.buf.drop HEADER_SIZE

/-- `AsMut<[u8]> for PrefixedPayload` (lines 115-119): the same post-header
region, exposed for in-place mutation. -/
def PrefixedPayload.asMut (p : PrefixedPayload) : List Nat :=
  p.buf.drop HEADER_SIZE

/-- `Extend<&u8> for PrefixedPayload` (lines 121-125): append bytes to the
end of the buffer. -/
def PrefixedPayload.extendWith (p : PrefixedPayload) (xs : List Nat) :
    PrefixedPayload :=
  ⟨p.buf ++ xs⟩

/-- `OutboundOpaqueMessage` (lines 20-25). -/
structure OutboundOpaqueMessage where
  typ : EnumVal
  version : EnumVal
  payload : PrefixedPayload
deriving DecidableEq, Repr

/-- `read_opaque_message_header` (lines 154-187), with the `&mut Reader`
threaded explicitly: the reader as mutated so far is returned alongside the
result. -/
def read_opaque_message_header (r : Reader) :
    Except MessageError (EnumVal × EnumVal × Nat) × Reader :=
  match ContentType.read r with
  | (.error _, r₁) => (.error .tooShortForHeader, r₁)
  | (.ok typ, r₁) =>
    if typ.isUnknown then (.error .invalidContentType, r₁)
    else
      match ProtocolVersion.read r₁ with
      | (.error _, r₂) => (.error .tooShortForHeader, r₂)
      | (.ok version, r₂) =>
        if version.isUnknown ∧ Nat.land version.getUint 0xff00 ≠ 0x0300 then
          (.error .unknownProtocolVersion, r₂)
        else
          match readUintBE 2 r₂ with
          | none => (.error .tooShortForHeader, r₂)
          | some (len, r₃) =>
            if typ ≠ applicationData ∧ len = 0 then
              (.error .invalidEmptyPayload, r₃)
            else if MAX_PAYLOAD ≤ len then
              (.error .messageTooLarge, r₃)
            else
              (.ok (typ, version, len), r₃)

/-- `OutboundOpaqueMessage::read` (lines 51-63), reader threaded
explicitly. -/
def OutboundOpaqueMessage.read (r : Reader) :
    Except MessageError OutboundOpaqueMessage × Reader :=
  match read_opaque_message_header r with
  | (.error e, r₁) => (.error e, r₁)
  | (.ok (typ, version, len), r₁) =>
    match r₁.take len with
    | none => (.error .tooShortForLength, r₁)
    | some (content, r₂) =>
      (.ok ⟨typ, version, PrefixedPayload.fromSlice content⟩, r₂)

/-- The in-place header stamp of `encode` (lines 68-70): byte 0 receives the
content-type integer (a u8), bytes 1-2 the version integer big-endian
(a u16), bytes 3-4 the length big-endian (a u16). -/
def writeHeader (t v len : Nat) (buf : List Nat) : List Nat :=
  ((((buf.set 0 (t % 256)).set 1 (v / 256 % 256)).set 2 (v % 256)).set 3
      (len / 256 % 256)).set 4 (len % 256)

/-- `OutboundOpaqueMessage::encode` (lines 65-72): take the internal buffer,
compute the payload length as a u16, stamp the 5-byte header in place and
return the whole buffer. -/
def OutboundOpaqueMessage.encode (m : OutboundOpaqueMessage) : List Nat :=
  writeHeader m.typ.getUint m.version.getUint (m.payload.asRef.length % 65536)
    m.payload.buf

/-- Reference rendition of §4.3 of the spec: header validation as a function
of the unread byte list, with the checks interleaved in the order the spec
lists them (content-type presence, content-type known, version presence,
version family, length presence, nonempty-unless-application-data, size
bound).  `read_opaque_message_header` is proved equal to this. -/
def headerValidationSpec : List Nat → Except MessageError (EnumVal × EnumVal × Nat)
  | [] => .error .tooShortForHeader
  | t :: rest =>
    let typ := EnumVal.fromInt ctConstants t
    if typ.isUnknown then .error .invalidContentType
    else
      match rest with
      | v1 :: v2 :: rest₂ =>
        let version := EnumVal.fromInt pvConstants (v1 * 256 + v2)
        if version.isUnknown ∧ Nat.land version.getUint 0xff00 ≠ 0x0300 then
          .error .unknownProtocolVersion
        else
          match rest₂ with
          | l1 :: l2 :: _ =>
            let len := l1 * 256 + l2
            if typ ≠ applicationData ∧ len = 0 then .error .invalidEmptyPayload
            else if MAX_PAYLOAD ≤ len then .error .messageTooLarge
            else .ok (typ, version, len)
          | _ => .error .tooShortForHeader
      | _ => .error .tooShortForHeader

theorem Reader.left_eq (r : Reader) : r.left = r.remaining.length := by
  simp [Reader.left, Reader.remaining]

theorem Reader.remaining_advance (r : Reader) (n : Nat) :
    (⟨r.buffer, r.cursor + n⟩ : Reader).remaining = r.remaining.drop n := by
  simp [Reader.remaining, List.drop_drop]

theorem beVal_one (a : Nat) : beVal [a] = a := by simp [beVal]

theorem beVal_two (a b : Nat) : beVal [a, b] = a * 256 + b := by simp [beVal]

theorem readUintBE_one (r : Reader) :
    readUintBE 1 r =
      match r.remaining with
      | [] => none
      | a :: _ => some (a, ⟨r.buffer, r.cursor + 1⟩) := by
  rcases hrem : r.remaining with _ | ⟨a, rest⟩ <;>
    simp_all [readUintBE, Reader.take, Reader.left_eq, hrem, Reader.remaining,
      beVal_one]

theorem readUintBE_two (r : Reader) :
    readUintBE 2 r =
      match r.remaining with
      | a :: b :: _ => some (a * 256 + b, ⟨r.buffer, r.cursor + 2⟩)
      | _ => none := by
  rcases hrem : r.remaining with _ | ⟨a, _ | ⟨b, rest⟩⟩
  · simp_all [readUintBE, Reader.take, Reader.left_eq, Reader.remaining]
  · simp_all [readUintBE, Reader.take, Reader.left_eq, Reader.remaining]
  · have hlen : ¬ (r.left < 2) := by rw [Reader.left_eq, hrem]; simp
    simp only [Reader.remaining] at hrem
    simp only [readUintBE, Reader.take, if_neg hlen, hrem]
    simp [beVal_two]

theorem header_run (r : Reader) :
    (read_opaque_message_header r).1 = headerValidationSpec r.remaining ∧
    (read_opaque_message_header r).2.buffer = r.buffer ∧
    r.cursor ≤ (read_opaque_message_header r).2.cursor ∧
    (read_opaque_message_header r).2.cursor ≤ r.cursor + 5 ∧
    (∀ x, (read_opaque_message_header r).1 = .ok x →
      (read_opaque_message_header r).2 = ⟨r.buffer, r.cursor + 5⟩) := by
  rcases hrem : r.remaining with _ | ⟨a, _ | ⟨b, _ | ⟨c, _ | ⟨d, _ | ⟨e, rest⟩⟩⟩⟩⟩ <;>
    simp only [Reader.remaining] at hrem
  · simp only [read_opaque_message_header, ContentType.read, EnumVal.read,
      readUintBE_one, Reader.remaining, hrem, headerValidationSpec]
    simp
  · have h1 : List.drop (r.cursor + 1) r.buffer = [] := by
      rw [← List.drop_drop, hrem]; rfl
    simp only [read_opaque_message_header, ContentType.read, ProtocolVersion.read,
      EnumVal.read, readUintBE_one, readUintBE_two, Reader.remaining, hrem, h1,
      headerValidationSpec]
    split_ifs <;> simp
  · have h1 : List.drop (r.cursor + 1) r.buffer = [b] := by
      rw [← List.drop_drop, hrem]; rfl
    simp only [read_opaque_message_header, ContentType.read, ProtocolVersion.read,
      EnumVal.read, readUintBE_one, readUintBE_two, Reader.remaining, hrem, h1,
      headerValidationSpec]
    split_ifs <;> simp
  · have h1 : List.drop (r.cursor + 1) r.buffer = [b, c] := by
      rw [← List.drop_drop, hrem]; rfl
    have h3 : List.drop (r.cursor + 1 + 2) r.buffer = [] := by
      rw [← List.drop_drop, h1]; rfl
    simp only [read_opaque_message_header, ContentType.read, ProtocolVersion.read,
      EnumVal.read, readUintBE_one, readUintBE_two, Reader.remaining, hrem, h1, h3,
      headerValidationSpec]
    split_ifs <;> simp <;> omega
  · have h1 : List.drop (r.cursor + 1) r.buffer = [b, c, d] := by
      rw [← List.drop_drop, hrem]; rfl
    have h3 : List.drop (r.cursor + 1 + 2) r.buffer = [d] := by
      rw [← List.drop_drop, h1]; rfl
    simp only [read_opaque_message_header, ContentType.read, ProtocolVersion.read,
      EnumVal.read, readUintBE_one, readUintBE_two, Reader.remaining, hrem, h1, h3,
      headerValidationSpec]
    split_ifs <;> simp <;> omega
  · have h1 : List.drop (r.cursor + 1) r.buffer = b :: c :: d :: e :: rest := by
      rw [← List.drop_drop, hrem]; rfl
    have h3 : List.drop (r.cursor + 1 + 2) r.buffer = d :: e :: rest := by
      rw [← List.drop_drop, h1]; rfl
    simp only [read_opaque_message_header, ContentType.read, ProtocolVersion.read,
      EnumVal.read, readUintBE_one, readUintBE_two, Reader.remaining, hrem, h1, h3,
      headerValidationSpec]
    split_ifs <;> simp <;> omega

theorem ctConstants_lt : ∀ x ∈ ctConstants, x < 256 := by decide

theorem pvConstants_lt : ∀ x ∈ pvConstants, x < 65536 := by decide

theorem exists_cons5 (l : List Nat) (h : 5 ≤ l.length) :
    ∃ a b c d e t, l = a :: b :: c :: d :: e :: t := by
  rcases l with _ | ⟨a, _ | ⟨b, _ | ⟨c, _ | ⟨d, _ | ⟨e, t⟩⟩⟩⟩⟩
  · simp at h
  · simp at h
  · simp at h
  · simp at h
  · simp at h
  · exact ⟨a, b, c, d, e, t, rfl⟩

theorem writeHeader_cons5 (t v L b0 b1 b2 b3 b4 : Nat) (rest : List Nat) :
    writeHeader t v L (b0 :: b1 :: b2 :: b3 :: b4 :: rest) =
      (t % 256) :: (v / 256 % 256) :: (v % 256) :: (L / 256 % 256) ::
        (L % 256) :: rest := rfl

theorem writeHeader_length (t v L : Nat) (buf : List Nat) :
    (writeHeader t v L buf).length = buf.length := by
  simp [writeHeader]

theorem fromSlice_asRef (content : List Nat) :
    (PrefixedPayload.fromSlice content).asRef = content := by
  simp [PrefixedPayload.fromSlice, PrefixedPayload.asRef, HEADER_SIZE]

/-- Claim C3: for every enumeration generated by the codec pattern,
`from_integer` maps an integer matching no named constant to the open
variant carrying exactly that integer; decode with enough bytes for the
backing width never errors; decode fails exactly when insufficient bytes
remain, with a missing-data error naming the enumeration (and no bytes
consumed). -/
theorem enum_decode_forward_compat (name : String) (constants : List Nat)
    (width : Nat) (r : Reader) :
    (∀ x, x ∉ constants → EnumVal.fromInt constants x = .unknown x) ∧
    (width ≤ r.remaining.length →
      ∃ x r₂, EnumVal.read name constants width r =
        (.ok (.fromInt constants x), r₂)) ∧
    (r.remaining.length < width →
      EnumVal.read name constants width r =
        (.error (.missingData name), r)) := by
  refine ⟨fun x hx => by simp [EnumVal.fromInt, hx], ?_, ?_⟩
  · intro h
    have hl : ¬ (r.left < width) := by rw [Reader.left_eq]; omega
    simp only [EnumVal.read, readUintBE, Reader.take, if_neg hl]
    exact ⟨_, _, rfl⟩
  · intro h
    have hl : r.left < width := by rw [Reader.left_eq]; omega
    simp only [EnumVal.read, readUintBE, Reader.take, if_pos hl]

theorem enum_decode_forward_compat_witness :
    EnumVal.fromInt ctConstants 99 = .unknown 99 ∧
    (∃ x r₂, EnumVal.read "ContentType" ctConstants 1 (Reader.init [99]) =
      (.ok (.fromInt ctConstants x), r₂)) ∧
    EnumVal.read "ContentType" ctConstants 1 (Reader.init []) =
      (.error (.missingData "ContentType"), Reader.init []) :=
  ⟨(enum_decode_forward_compat "ContentType" ctConstants 1
      (Reader.init [99])).1 99 (by decide),
   (enum_decode_forward_compat "ContentType" ctConstants 1
      (Reader.init [99])).2.1 (by decide),
   (enum_decode_forward_compat "ContentType" ctConstants 1
      (Reader.init [])).2.2 (by decide)⟩

/-- Claim C4: for every enumeration generated by the codec pattern and every
integer in the backing width's range, converting to a value and back
recovers the exact integer, for named variants and the open variant
alike. -/
theorem enum_roundtrip_total (constants : List Nat) (width : Nat) (x : Nat)
    (_h : x < 2 ^ (8 * width)) :
    (EnumVal.fromInt constants x).getUint = x := by
  unfold EnumVal.fromInt
  by_cases hx : x ∈ constants <;> simp [hx, EnumVal.getUint]

theorem enum_roundtrip_total_witness :
    (EnumVal.fromInt ctConstants 22).getUint = 22 ∧
    (EnumVal.fromInt ctConstants 99).getUint = 99 ∧
    (EnumVal.fromInt pvConstants 769).getUint = 769 :=
  ⟨enum_roundtrip_total ctConstants 1 22 (by decide),
   enum_roundtrip_total ctConstants 1 99 (by decide),
   enum_roundtrip_total pvConstants 2 769 (by decide)⟩

/-- Claim C8: the payload accessor region is exactly the buffer region after
the 5 reserved header bytes: empty for a fresh with_capacity payload, the
received content for a payload reconstructed from bytes, and appending via
extend grows exactly the accessor region (for both the shared and the
mutable accessor). -/
theorem payload_region_after_header (c : Nat) (bs xs : List Nat)
    (p : PrefixedPayload) :
    (PrefixedPayload.withCapacity c).asRef = [] ∧
    (PrefixedPayload.withCapacity c).asMut = [] ∧
    (PrefixedPayload.fromSlice bs).asRef = bs ∧
    (PrefixedPayload.fromSlice bs).asMut = bs ∧
    (HEADER_SIZE ≤ p.buf.length →
      (p.extendWith xs).asRef = p.asRef ++ xs ∧
      (p.extendWith xs).asMut = p.asMut ++ xs) := by
  refine ⟨?_, ?_, ?_, ?_, fun h => ⟨?_, ?_⟩⟩ <;>
    simp [PrefixedPayload.withCapacity, PrefixedPayload.fromSlice,
      PrefixedPayload.asRef, PrefixedPayload.asMut, PrefixedPayload.extendWith,
      HEADER_SIZE] <;>
    exact List.drop_append_of_le_length (by simpa [HEADER_SIZE] using h)

theorem payload_region_after_header_witness :
    ((PrefixedPayload.fromSlice [7]).extendWith [8]).asRef =
      (PrefixedPayload.fromSlice [7]).asRef ++ [8] :=
  ((payload_region_after_header 0 [7] [8]
    (PrefixedPayload.fromSlice [7])).2.2.2.2 (by decide)).1

/-- The ways the code constructs and grows a `PrefixedPayload`:
`with_capacity`, the two `From` impls (which share one body), and any
number of `extend` appends. -/
inductive PrefixedPayload.Built : PrefixedPayload → Prop where
  | withCapacity (c : Nat) : Built (PrefixedPayload.withCapacity c)
  | fromSlice (bs : List Nat) : Built (PrefixedPayload.fromSlice bs)
  | extendWith (p : PrefixedPayload) (xs : List Nat) :
      Built p → Built (p.extendWith xs)

/-- Claim C10: every payload produced by with_capacity or the From
conversions has a buffer of length at least HEADER_SIZE = 5, extend
preserves this, and consequently the header indices 0..4 used by the
accessor slices and the encode prefix writes are in bounds. -/
theorem buffer_len_ge_header (p : PrefixedPayload) (h : p.Built) :
    HEADER_SIZE ≤ p.buf.length ∧ ∀ i, i < HEADER_SIZE → i < p.buf.length := by
  induction h with
  | withCapacity c =>
    refine ⟨?_, fun i hi => ?_⟩ <;>
      simp_all [PrefixedPayload.withCapacity, HEADER_SIZE]
  | fromSlice bs =>
    refine ⟨?_, fun i hi => ?_⟩ <;>
      simp_all [PrefixedPayload.fromSlice, HEADER_SIZE] <;> try omega
  | extendWith p xs hp ih =>
    refine ⟨?_, fun i hi => ?_⟩ <;>
      simp_all [PrefixedPayload.extendWith, HEADER_SIZE] <;> omega

theorem buffer_len_ge_header_witness :
    HEADER_SIZE ≤ (PrefixedPayload.withCapacity 0).buf.length ∧
    ∀ i, i < HEADER_SIZE → i < (PrefixedPayload.withCapacity 0).buf.length :=
  buffer_len_ge_header _ (PrefixedPayload.Built.withCapacity 0)

/-- Evaluation of encode on a buffer with its five header cells exposed. -/
theorem encode_cons5 (typ ver : EnumVal) (b0 b1 b2 b3 b4 : Nat)
    (rest : List Nat) :
    OutboundOpaqueMessage.encode ⟨typ, ver, ⟨b0 :: b1 :: b2 :: b3 :: b4 :: rest⟩⟩ =
      (typ.getUint % 256) :: (ver.getUint / 256 % 256) :: (ver.getUint % 256) ::
      (rest.length % 65536 / 256 % 256) :: (rest.length % 65536 % 256) ::
      rest := rfl

/-- Claim C6: the encode output keeps the whole buffer: byte 0 is the
content-type integer, bytes 1-2 the version integer big-endian, bytes 3-4
the payload length as a big-endian u16, and everything from index 5 on is
exactly the payload region, unmodified. -/
theorem encode_bytes_layout (m : OutboundOpaqueMessage)
    (hbuf : HEADER_SIZE ≤ m.payload.buf.length)
    (ht : m.typ.getUint < 256) (hv : m.version.getUint < 65536) :
    m.encode.length = m.payload.buf.length ∧
    m.encode =
      [m.typ.getUint, m.version.getUint / 256, m.version.getUint % 256,
        m.payload.asRef.length % 65536 / 256,
        m.payload.asRef.length % 65536 % 256] ++ m.payload.asRef := by
  rcases m with ⟨typ, ver, ⟨buf⟩⟩
  simp only [HEADER_SIZE] at hbuf
  obtain ⟨b0, b1, b2, b3, b4, rest, rfl⟩ := exists_cons5 buf hbuf
  simp only at ht hv
  refine ⟨by rw [OutboundOpaqueMessage.encode, writeHeader_length], ?_⟩
  rw [encode_cons5]
  have hr : (PrefixedPayload.asRef ⟨b0 :: b1 :: b2 :: b3 :: b4 :: rest⟩) =
      rest := rfl
  rw [hr]
  simp only [List.cons_append, List.nil_append, List.cons.injEq, and_true,
    true_and]
  omega

theorem encode_bytes_layout_witness :
    (OutboundOpaqueMessage.encode
      ⟨.known 22, .known 769, PrefixedPayload.fromSlice [9]⟩).length =
      (PrefixedPayload.fromSlice [9]).buf.length ∧
    (OutboundOpaqueMessage.encode
      ⟨.known 22, .known 769, PrefixedPayload.fromSlice [9]⟩) =
      [22, 769 / 256, 769 % 256,
        (PrefixedPayload.fromSlice [9]).asRef.length % 65536 / 256,
        (PrefixedPayload.fromSlice [9]).asRef.length % 65536 % 256] ++
        (PrefixedPayload.fromSlice [9]).asRef :=
  encode_bytes_layout ⟨.known 22, .known 769, PrefixedPayload.fromSlice [9]⟩
    (by decide) (by decide) (by decide)

/-- Claim C7 counterexample: a frame whose payload was grown by extend
beyond MAX_PAYLOAD encodes to more than HEADER_SIZE + MAX_PAYLOAD = 18437
wire bytes, so the claimed bound does not hold for every message however
its buffer was grown. -/
theorem wire_size_bounded_cex :
    PrefixedPayload.Built
      ((PrefixedPayload.withCapacity 0).extendWith (List.replicate 18433 0)) ∧
    (OutboundOpaqueMessage.encode
      ⟨.known 22, .known 769,
        (PrefixedPayload.withCapacity 0).extendWith
          (List.replicate 18433 0)⟩).length = 18438 ∧
    ¬ (18438 ≤ HEADER_SIZE + MAX_PAYLOAD) := by
  refine ⟨.extendWith _ _ (.withCapacity 0), ?_, by decide⟩
  rw [OutboundOpaqueMessage.encode, writeHeader_length]
  show (List.replicate HEADER_SIZE 0 ++ List.replicate 18433 (0 : Nat)).length = 18438
  rw [List.length_append, List.length_replicate, List.length_replicate]
  rfl

/-- Claim C7 (amended): for every message whose payload region is at most
MAX_PAYLOAD bytes — the invariant decode establishes and callers are
trusted to maintain, which unbounded extend growth can violate — the
on-wire size of encode is at most HEADER_SIZE + MAX_PAYLOAD and the u16
cast of the payload length performed by encode does not wrap. -/
theorem wire_size_bounded (m : OutboundOpaqueMessage)
    (_hbuf : HEADER_SIZE ≤ m.payload.buf.length)
    (hlen : m.payload.asRef.length ≤ MAX_PAYLOAD) :
    m.encode.length ≤ HEADER_SIZE + MAX_PAYLOAD ∧
    m.payload.asRef.length % 65536 = m.payload.asRef.length := by
  have hrel : m.payload.asRef.length = m.payload.buf.length - 5 := by
    simp [PrefixedPayload.asRef, HEADER_SIZE]
  constructor
  · rw [OutboundOpaqueMessage.encode, writeHeader_length]
    simp only [HEADER_SIZE, MAX_PAYLOAD] at *
    omega
  · simp only [HEADER_SIZE, MAX_PAYLOAD] at *
    omega

theorem wire_size_bounded_witness :
    (OutboundOpaqueMessage.encode
      ⟨.known 22, .known 769, PrefixedPayload.fromSlice [9]⟩).length ≤
      HEADER_SIZE + MAX_PAYLOAD ∧
    (PrefixedPayload.fromSlice [9]).asRef.length % 65536 =
      (PrefixedPayload.fromSlice [9]).asRef.length :=
  wire_size_bounded ⟨.known 22, .known 769, PrefixedPayload.fromSlice [9]⟩
    (by decide) (by decide)

/-- Equality of decode results is decidable (used to evaluate the embedded
functions at concrete inputs). -/
instance {e a : Type} [DecidableEq e] [DecidableEq a] :
    DecidableEq (Except e a) := fun x y =>
  match x, y with
  | .ok u, .ok v =>
    if h : u = v then .isTrue (by rw [h]) else .isFalse (by simp [h])
  | .error u, .error v =>
    if h : u = v then .isTrue (by rw [h]) else .isFalse (by simp [h])
  | .ok _, .error _ => .isFalse (by simp)
  | .error _, .ok _ => .isFalse (by simp)

theorem remaining_init (bytes : List Nat) :
    (Reader.init bytes).remaining = bytes := by
  simp [Reader.init, Reader.remaining]

theorem read_err_eq (r : Reader) (e : MessageError)
    (h : (read_opaque_message_header r).1 = .error e) :
    OutboundOpaqueMessage.read r =
      (.error e, (read_opaque_message_header r).2) := by
  rcases hq : read_opaque_message_header r with ⟨a, r₁⟩
  rw [hq] at h
  simp only at h
  subst h
  simp [OutboundOpaqueMessage.read, hq]

/-- Claim C2 counterexample: on the single byte 0x00 the version and length
fields cannot be read (only one of the five header bytes is available), yet
header validation reports invalid-content-type, not the too-short-for-header
error that the claim's listed check order would produce first. -/
theorem header_validation_order_cex :
    (Reader.init [0]).remaining.length < 5 ∧
    (read_opaque_message_header (Reader.init [0])).1 =
      .error .invalidContentType ∧
    MessageError.invalidContentType ≠ MessageError.tooShortForHeader := by
  decide

/-- Claim C2 (amended): header validation returns the validated triple
exactly when the content-type byte decodes to a named variant, the version
is named or an unknown value in the 0x03xx family, and the length is below
MAX_PAYLOAD and nonzero unless the type is application data; on failure it
returns the error of the first failing check with the per-field checks
interleaved — content-type presence, content-type named, version presence,
version family, length presence, nonempty-unless-application-data, size
bound — as captured by the reference function `headerValidationSpec`; on
success the reader has consumed exactly the five header bytes. -/
theorem header_validation_correct (r : Reader) :
    (read_opaque_message_header r).1 = headerValidationSpec r.remaining ∧
    (∀ x, (read_opaque_message_header r).1 = .ok x →
      (read_opaque_message_header r).2 = ⟨r.buffer, r.cursor + 5⟩) :=
  ⟨(header_run r).1, (header_run r).2.2.2.2⟩

theorem header_validation_correct_witness :
    (read_opaque_message_header (Reader.init [22, 3, 1, 0, 2])).1 =
      headerValidationSpec (Reader.init [22, 3, 1, 0, 2]).remaining ∧
    (read_opaque_message_header (Reader.init [22, 3, 1, 0, 2])).2 =
      ⟨[22, 3, 1, 0, 2], 0 + 5⟩ :=
  ⟨(header_validation_correct (Reader.init [22, 3, 1, 0, 2])).1,
   (header_validation_correct (Reader.init [22, 3, 1, 0, 2])).2
     (.known 22, .known 769, 2) (by decide)⟩

/-- Claim C9: whenever header validation fails inside read, read returns
exactly that error with the reader exactly as header validation left it —
advanced by at most the five header bytes past the starting cursor — and
the declared-length payload region is never taken. -/
theorem header_failure_no_payload_consumed (r : Reader) (e : MessageError)
    (h : (read_opaque_message_header r).1 = .error e) :
    OutboundOpaqueMessage.read r =
      (.error e, (read_opaque_message_header r).2) ∧
    (read_opaque_message_header r).2.cursor ≤ r.cursor + 5 :=
  ⟨read_err_eq r e h, (header_run r).2.2.2.1⟩

theorem header_failure_no_payload_consumed_witness :
    OutboundOpaqueMessage.read (Reader.init [22, 7, 1, 0, 5]) =
      (.error .unknownProtocolVersion,
        (read_opaque_message_header (Reader.init [22, 7, 1, 0, 5])).2) ∧
    (read_opaque_message_header (Reader.init [22, 7, 1, 0, 5])).2.cursor ≤
      (Reader.init [22, 7, 1, 0, 5]).cursor + 5 :=
  header_failure_no_payload_consumed (Reader.init [22, 7, 1, 0, 5])
    .unknownProtocolVersion (by decide)

theorem version_facts (ver : EnumVal)
    (hver : (∃ v, ver = .known v ∧ v ∈ pvConstants) ∨
      (∃ v, ver = .unknown v ∧ v ∉ pvConstants ∧
        Nat.land v 0xff00 = 0x0300 ∧ v < 65536)) :
    ver.getUint < 65536 ∧
    (ver.getUint ∈ pvConstants ∨ Nat.land ver.getUint 0xff00 = 0x0300) ∧
    EnumVal.fromInt pvConstants ver.getUint = ver := by
  rcases hver with ⟨v, rfl, hmem⟩ | ⟨v, rfl, hnmem, hfam, hlt⟩
  · exact ⟨pvConstants_lt v hmem, .inl hmem,
      by simp [EnumVal.fromInt, EnumVal.getUint, hmem]⟩
  · exact ⟨hlt, .inr hfam,
      by simp [EnumVal.fromInt, EnumVal.getUint, hnmem]⟩

theorem headerValidationSpec_ok (t vh vl lh ll : Nat) (rest : List Nat)
    (htc : t ∈ ctConstants)
    (hv : (vh * 256 + vl) ∈ pvConstants ∨
      Nat.land (vh * 256 + vl) 0xff00 = 0x0300)
    (hL : lh * 256 + ll < MAX_PAYLOAD)
    (hnz : EnumVal.known t ≠ applicationData → lh * 256 + ll ≠ 0) :
    headerValidationSpec (t :: vh :: vl :: lh :: ll :: rest) =
      .ok (.known t, EnumVal.fromInt pvConstants (vh * 256 + vl),
        lh * 256 + ll) := by
  have hct : EnumVal.fromInt ctConstants t = .known t := by
    simp [EnumVal.fromInt, htc]
  have hemp : ¬ (EnumVal.known t ≠ applicationData ∧ (lh * 256 + ll) = 0) := by
    rintro ⟨h1, h2⟩
    exact hnz h1 h2
  have hbig : ¬ (MAX_PAYLOAD ≤ lh * 256 + ll) := Nat.not_le.mpr hL
  rcases hv with hmem | hfam
  · have hpv : EnumVal.fromInt pvConstants (vh * 256 + vl) =
        .known (vh * 256 + vl) := by simp [EnumVal.fromInt, hmem]
    simp [headerValidationSpec, hct, hpv, EnumVal.isUnknown, hemp, hbig]
    intro h1 h2 h3
    exact hnz h1 (by omega)
  · by_cases hmem : (vh * 256 + vl) ∈ pvConstants
    · have hpv : EnumVal.fromInt pvConstants (vh * 256 + vl) =
          .known (vh * 256 + vl) := by simp [EnumVal.fromInt, hmem]
      simp [headerValidationSpec, hct, hpv, EnumVal.isUnknown, hemp, hbig]
      intro h1 h2 h3
      exact hnz h1 (by omega)
    · have hpv : EnumVal.fromInt pvConstants (vh * 256 + vl) =
          .unknown (vh * 256 + vl) := by simp [EnumVal.fromInt, hmem]
      simp [headerValidationSpec, hct, hpv, EnumVal.isUnknown, EnumVal.getUint,
        hfam, hemp, hbig]
      intro h1 h2 h3
      exact hnz h1 (by omega)

theorem headerValidationSpec_short (t vh vl lh : Nat)
    (htc : t ∈ ctConstants)
    (hv : (vh * 256 + vl) ∈ pvConstants ∨
      Nat.land (vh * 256 + vl) 0xff00 = 0x0300) :
    headerValidationSpec [] = .error .tooShortForHeader ∧
    headerValidationSpec [t] = .error .tooShortForHeader ∧
    headerValidationSpec [t, vh] = .error .tooShortForHeader ∧
    headerValidationSpec [t, vh, vl] = .error .tooShortForHeader ∧
    headerValidationSpec [t, vh, vl, lh] = .error .tooShortForHeader := by
  have hct : EnumVal.fromInt ctConstants t = .known t := by
    simp [EnumVal.fromInt, htc]
  refine ⟨rfl, ?_, ?_, ?_, ?_⟩
  · simp [headerValidationSpec, hct, EnumVal.isUnknown]
  · simp [headerValidationSpec, hct, EnumVal.isUnknown]
  · rcases hv with hmem | hfam
    · have hpv : EnumVal.fromInt pvConstants (vh * 256 + vl) =
          .known (vh * 256 + vl) := by simp [EnumVal.fromInt, hmem]
      simp [headerValidationSpec, hct, hpv, EnumVal.isUnknown]
    · by_cases hmem : (vh * 256 + vl) ∈ pvConstants
      · have hpv : EnumVal.fromInt pvConstants (vh * 256 + vl) =
            .known (vh * 256 + vl) := by simp [EnumVal.fromInt, hmem]
        simp [headerValidationSpec, hct, hpv, EnumVal.isUnknown]
      · have hpv : EnumVal.fromInt pvConstants (vh * 256 + vl) =
            .unknown (vh * 256 + vl) := by simp [EnumVal.fromInt, hmem]
        simp [headerValidationSpec, hct, hpv, EnumVal.isUnknown,
          EnumVal.getUint, hfam]
  · rcases hv with hmem | hfam
    · have hpv : EnumVal.fromInt pvConstants (vh * 256 + vl) =
          .known (vh * 256 + vl) := by simp [EnumVal.fromInt, hmem]
      simp [headerValidationSpec, hct, hpv, EnumVal.isUnknown]
    · by_cases hmem : (vh * 256 + vl) ∈ pvConstants
      · have hpv : EnumVal.fromInt pvConstants (vh * 256 + vl) =
            .known (vh * 256 + vl) := by simp [EnumVal.fromInt, hmem]
        simp [headerValidationSpec, hct, hpv, EnumVal.isUnknown]
      · have hpv : EnumVal.fromInt pvConstants (vh * 256 + vl) =
            .unknown (vh * 256 + vl) := by simp [EnumVal.fromInt, hmem]
        simp [headerValidationSpec, hct, hpv, EnumVal.isUnknown,
          EnumVal.getUint, hfam]

theorem encode_norm (t : Nat) (ver : EnumVal) (b0 b1 b2 b3 b4 : Nat)
    (rest : List Nat) (ht : t < 256) (hv : ver.getUint < 65536)
    (hlen : rest.length < 65536) :
    OutboundOpaqueMessage.encode
      ⟨.known t, ver, ⟨b0 :: b1 :: b2 :: b3 :: b4 :: rest⟩⟩ =
      t :: (ver.getUint / 256) :: (ver.getUint % 256) ::
      (rest.length / 256) :: (rest.length % 256) :: rest := by
  rw [encode_cons5]
  have h1 : EnumVal.getUint (.known t) = t := rfl
  simp only [h1, List.cons.injEq, eq_self_iff_true, and_true, true_and]
  omega

theorem read_exact (bytes : List Nat) (t v : EnumVal) (L : Nat)
    (hspec : headerValidationSpec bytes = .ok (t, v, L))
    (hlen : bytes.length = 5 + L) :
    OutboundOpaqueMessage.read (Reader.init bytes) =
      (.ok ⟨t, v, .fromSlice (bytes.drop 5)⟩, ⟨bytes, 5 + L⟩) := by
  have hh1 : (read_opaque_message_header (Reader.init bytes)).1 =
      .ok (t, v, L) := by
    rw [(header_run (Reader.init bytes)).1, remaining_init, hspec]
  have hh2 := (header_run (Reader.init bytes)).2.2.2.2 _ hh1
  have hpair : read_opaque_message_header (Reader.init bytes) =
      (.ok (t, v, L), ⟨bytes, 0 + 5⟩) := by
    conv_lhs => rw [show read_opaque_message_header (Reader.init bytes) =
      ((read_opaque_message_header (Reader.init bytes)).1,
        (read_opaque_message_header (Reader.init bytes)).2) from rfl]
    rw [hh1, hh2]
    rfl
  have htake : Reader.take ⟨bytes, 0 + 5⟩ L =
      some (bytes.drop 5, ⟨bytes, 5 + L⟩) := by
    unfold Reader.take Reader.left
    have h5 : ¬ ((⟨bytes, 0 + 5⟩ : Reader).buffer.length -
        (⟨bytes, 0 + 5⟩ : Reader).cursor < L) := by
      simp only
      omega
    rw [if_neg h5]
    have hd : (⟨bytes, 0 + 5⟩ : Reader).buffer.drop
        (⟨bytes, 0 + 5⟩ : Reader).cursor = bytes.drop 5 := by norm_num
    rw [hd]
    have hL2 : (bytes.drop 5).length = L := by
      simp [hlen]
    rw [← hL2, List.take_length]
  simp only [OutboundOpaqueMessage.read, hpair, htake]

/-- Claim C5 counterexample: a cursor holding the single byte 0x00 has fewer
than the five header bytes available, yet read returns invalid-content-type,
not the claimed header-too-short error (the byte already fails the
content-type check). -/
theorem truncation_error_cex :
    (Reader.init [0]).remaining.length < 5 ∧
    (OutboundOpaqueMessage.read (Reader.init [0])).1 =
      .error .invalidContentType ∧
    MessageError.invalidContentType ≠ MessageError.tooShortForHeader := by
  decide

/-- Claim C5 (amended): if the available bytes are a proper prefix (fewer
than five bytes) of the encoding of a frame with a named content type and an
accepted version, read returns the header-too-short error; if the header
validates but fewer than the declared length bytes remain, read returns the
too-short-for-length error; and these two error values are distinct from
each other and from every protocol-violation error, so a caller can always
distinguish "need more input" from "reject this peer". -/
theorem truncation_errors_distinguishable :
    (∀ (m : OutboundOpaqueMessage) (t : Nat),
      m.typ = .known t → t ∈ ctConstants →
      ((∃ v, m.version = .known v ∧ v ∈ pvConstants) ∨
        (∃ v, m.version = .unknown v ∧ v ∉ pvConstants ∧
          Nat.land v 0xff00 = 0x0300 ∧ v < 65536)) →
      HEADER_SIZE ≤ m.payload.buf.length →
      m.payload.asRef.length < MAX_PAYLOAD →
      (m.typ ≠ applicationData → 0 < m.payload.asRef.length) →
      ∀ k, k < 5 →
        (OutboundOpaqueMessage.read (Reader.init (m.encode.take k))).1 =
          .error .tooShortForHeader) ∧
    (∀ (r : Reader) (t v : EnumVal) (L : Nat) (r₁ : Reader),
      read_opaque_message_header r = (.ok (t, v, L), r₁) → r₁.left < L →
      OutboundOpaqueMessage.read r = (.error .tooShortForLength, r₁)) ∧
    (MessageError.tooShortForHeader ≠ MessageError.tooShortForLength ∧
      MessageError.tooShortForHeader ≠ MessageError.invalidContentType ∧
      MessageError.tooShortForHeader ≠ MessageError.unknownProtocolVersion ∧
      MessageError.tooShortForHeader ≠ MessageError.invalidEmptyPayload ∧
      MessageError.tooShortForHeader ≠ MessageError.messageTooLarge ∧
      MessageError.tooShortForLength ≠ MessageError.invalidContentType ∧
      MessageError.tooShortForLength ≠ MessageError.unknownProtocolVersion ∧
      MessageError.tooShortForLength ≠ MessageError.invalidEmptyPayload ∧
      MessageError.tooShortForLength ≠ MessageError.messageTooLarge) := by
  refine ⟨?_, ?_, by decide⟩
  · intro m t htyp htc hver hbuf hmax _hnz k hk
    rcases m with ⟨typ, ver, ⟨buf⟩⟩
    simp only at htyp hbuf hmax
    subst htyp
    simp only [HEADER_SIZE] at hbuf
    obtain ⟨b0, b1, b2, b3, b4, rest, rfl⟩ := exists_cons5 buf hbuf
    have hmax2 : rest.length < MAX_PAYLOAD := hmax
    have hrlen : rest.length < 65536 := by
      simp only [MAX_PAYLOAD] at hmax2
      omega
    have ht256 : t < 256 := ctConstants_lt t htc
    obtain ⟨hv65536, hvok, _⟩ := version_facts ver hver
    have hvsplit : ver.getUint / 256 * 256 + ver.getUint % 256 =
        ver.getUint := by omega
    have hshort := headerValidationSpec_short t (ver.getUint / 256)
      (ver.getUint % 256) (rest.length / 256) htc
      (by rw [hvsplit]; exact hvok)
    have henc := encode_norm t ver b0 b1 b2 b3 b4 rest ht256 hv65536 hrlen
    rw [henc]
    interval_cases k
    · exact congrArg Prod.fst (read_err_eq _ _
        (by rw [(header_run _).1, remaining_init]; exact hshort.1))
    · exact congrArg Prod.fst (read_err_eq _ _
        (by rw [(header_run _).1, remaining_init]; exact hshort.2.1))
    · exact congrArg Prod.fst (read_err_eq _ _
        (by rw [(header_run _).1, remaining_init]; exact hshort.2.2.1))
    · exact congrArg Prod.fst (read_err_eq _ _
        (by rw [(header_run _).1, remaining_init]; exact hshort.2.2.2.1))
    · exact congrArg Prod.fst (read_err_eq _ _
        (by rw [(header_run _).1, remaining_init]; exact hshort.2.2.2.2))
  · intro r t v L r₁ h hlt
    simp only [OutboundOpaqueMessage.read, h, Reader.take]
    rw [if_pos hlt]

theorem truncation_errors_distinguishable_witness :
    (OutboundOpaqueMessage.read (Reader.init
      ((OutboundOpaqueMessage.encode
        ⟨.known 22, .known 769, PrefixedPayload.fromSlice [9]⟩).take 2))).1 =
      .error .tooShortForHeader ∧
    OutboundOpaqueMessage.read (Reader.init [22, 3, 1, 0, 2, 170]) =
      (.error .tooShortForLength, ⟨[22, 3, 1, 0, 2, 170], 5⟩) :=
  ⟨truncation_errors_distinguishable.1
      ⟨.known 22, .known 769, PrefixedPayload.fromSlice [9]⟩ 22 rfl
      (by decide) (.inl ⟨769, rfl, by decide⟩) (by decide) (by decide)
      (by decide) 2 (by decide),
   truncation_errors_distinguishable.2.1 (Reader.init [22, 3, 1, 0, 2, 170])
      (.known 22) (.known 769) 2 ⟨[22, 3, 1, 0, 2, 170], 5⟩ (by decide)
      (by decide)⟩

/-- Claim C1 counterexample: the frame with handshake content type, version
Unknown(0x0301) — an Unknown value whose high byte is 0x03 — and one payload
byte satisfies every hypothesis of the claim, yet decoding its encoding
yields the named variant for 0x0301, so the version field of the decoded
frame differs from the original. -/
theorem roundtrip_decode_encode_cex :
    Nat.land 769 0xff00 = 0x0300 ∧
    (1 : Nat) < MAX_PAYLOAD ∧
    (OutboundOpaqueMessage.read (Reader.init (OutboundOpaqueMessage.encode
      ⟨.known 22, .unknown 769, PrefixedPayload.fromSlice [1]⟩))).1 =
      .ok ⟨.known 22, .known 769, PrefixedPayload.fromSlice [1]⟩ ∧
    EnumVal.known 769 ≠ EnumVal.unknown 769 := by
  decide

/-- Claim C1 (amended): for every frame whose content type is a named
variant, whose version is a named variant or an Unknown value with high
byte 0x03 matching no named version constant, and whose payload length n
satisfies 0 ≤ n < MAX_PAYLOAD with n > 0 unless the content type is
application data, reading back the bytes produced by encode yields a frame
with the same content type, the same version, and the same payload
bytes. -/
theorem roundtrip_decode_encode (m : OutboundOpaqueMessage) (t : Nat)
    (htyp : m.typ = .known t) (htc : t ∈ ctConstants)
    (hver : (∃ v, m.version = .known v ∧ v ∈ pvConstants) ∨
      (∃ v, m.version = .unknown v ∧ v ∉ pvConstants ∧
        Nat.land v 0xff00 = 0x0300 ∧ v < 65536))
    (hbuf : HEADER_SIZE ≤ m.payload.buf.length)
    (hmax : m.payload.asRef.length < MAX_PAYLOAD)
    (hnz : m.typ ≠ applicationData → 0 < m.payload.asRef.length) :
    ∃ m₂ r₂, OutboundOpaqueMessage.read (Reader.init m.encode) =
      (.ok m₂, r₂) ∧ m₂.typ = m.typ ∧ m₂.version = m.version ∧
      m₂.payload.asRef = m.payload.asRef := by
  rcases m with ⟨typ, ver, ⟨buf⟩⟩
  simp only at htyp hbuf hmax hnz
  subst htyp
  simp only [HEADER_SIZE] at hbuf
  obtain ⟨b0, b1, b2, b3, b4, rest, rfl⟩ := exists_cons5 buf hbuf
  have hmax2 : rest.length < MAX_PAYLOAD := hmax
  have hnz2 : EnumVal.known t ≠ applicationData → 0 < rest.length := hnz
  have hrlen : rest.length < 65536 := by
    simp only [MAX_PAYLOAD] at hmax2
    omega
  have ht256 : t < 256 := ctConstants_lt t htc
  obtain ⟨hv65536, hvok, hfrom⟩ := version_facts ver hver
  have hvsplit : ver.getUint / 256 * 256 + ver.getUint % 256 =
      ver.getUint := by omega
  have hLsplit : rest.length / 256 * 256 + rest.length % 256 =
      rest.length := by omega
  have henc := encode_norm t ver b0 b1 b2 b3 b4 rest ht256 hv65536 hrlen
  have hspec := headerValidationSpec_ok t (ver.getUint / 256)
    (ver.getUint % 256) (rest.length / 256) (rest.length % 256) rest htc
    (by rw [hvsplit]; exact hvok) (by rw [hLsplit]; exact hmax2)
    (by rw [hLsplit]; intro hne; exact (hnz2 hne).ne')
  rw [hvsplit, hLsplit, hfrom] at hspec
  have hread := read_exact
    (t :: (ver.getUint / 256) :: (ver.getUint % 256) ::
      (rest.length / 256) :: (rest.length % 256) :: rest)
    (.known t) ver rest.length hspec (by simp; omega)
  rw [henc]
  exact ⟨_, _, hread, rfl, rfl, fromSlice_asRef _⟩

theorem roundtrip_decode_encode_witness :
    ∃ m₂ r₂, OutboundOpaqueMessage.read (Reader.init
      (OutboundOpaqueMessage.encode
        ⟨.known 22, .known 769, PrefixedPayload.fromSlice [9]⟩)) =
      (.ok m₂, r₂) ∧ m₂.typ = .known 22 ∧ m₂.version = .known 769 ∧
      m₂.payload.asRef = (PrefixedPayload.fromSlice [9]).asRef :=
  roundtrip_decode_encode
    ⟨.known 22, .known 769, PrefixedPayload.fromSlice [9]⟩ 22 rfl
    (by decide) (.inl ⟨769, rfl, by decide⟩) (by decide) (by decide)
    (by decide)
